import Mathlib

/-!
Verification of the EUI-48 / EUI-64 no-std library.

The Rust source (src/lib.rs) is shallowly embedded below:
* strings are `List Char` (Rust `&str` iterated with `chars()`); the Rust
  `str::len` is the UTF-8 byte length, embedded as `utf8Len`;
* byte arrays are `List Nat` whose elements are `< 256`;
* `string_to_eui` is embedded as a fold of `scanStep` (the loop body of the
  Rust function) over the character list, with the loop-local state
  (`result`, `i`, `separators`, `separator_type`) made explicit;
* the `TryFrom<&str>` impls are `eui48TryFrom` / `eui64TryFrom`;
* the `to_string` encoders are `to_hex_string`;
* the numeric conversions `From<u64>`, `From<Eui48> for u64`,
  `From<Eui64> for u64` and `From<Eui48> for Eui64` are the `...FromU64`,
  `u64FromEui...` and `eui64FromEui48` functions.
-/

namespace Eui

/-- The table `UPPERCASE_HEX_CHARS: &[u8] = b"0123456789ABCDEF"` from lib.rs. -/
def UPPERCASE_HEX_CHARS : List Char :=
  ['0', '1', '2', '3', '4', '5', '6', '7', '8', '9', 'A', 'B', 'C', 'D', 'E', 'F']

/-- Rust `str::len`: the UTF-8 byte length of a string, as opposed to its
character count. -/
def utf8Len (s : List Char) : Nat := (s.map Char.utf8Size).sum

/-- The error enum `StringToEuiError` from lib.rs. -/
inductive StringToEuiError where
  | InvalidLength (length : Nat)
  | InvalidChar (char : Char)
  | InvalidSeparatorPlace
  | OnlyOneSeparatorTypeExpected
deriving DecidableEq

/-- The loop-local state of `string_to_eui`: the output buffer being filled,
the character index `i` of the enumeration, and the `separators` count and
`separator_type` variables. -/
structure ScanState where
  result : List Nat
  i : Nat
  separators : Nat
  separatorType : Option Char
deriving DecidableEq

/-- The classification of one character in `string_to_eui`: Rust computes
`char_byte = c as u8` (truncation of the code point to its low 8 bits) and
matches it against `b'A'..=b'F'`, `b'a'..=b'f'` and `b'0'..=b'9'`. -/
def hexCharIndex (c : Char) : Option Nat :=
  let char_byte := c.toNat % 256
  if 65 ≤ char_byte ∧ char_byte ≤ 70 then some (char_byte - 65 + 10)
  else if 97 ≤ char_byte ∧ char_byte ≤ 102 then some (char_byte - 97 + 10)
  else if 48 ≤ char_byte ∧ char_byte ≤ 57 then some (char_byte - 48)
  else none

/-- One iteration of the `for (i, c) in input.chars().enumerate()` loop of
`string_to_eui` (lib.rs lines 100-148). `inputLen` is `input.len()`, the
UTF-8 byte length of the whole input. The Rust locals
`current_pos = i - separators` and `index = current_pos / 2` are inlined. -/
def scanStep (inputLen : Nat) (c : Char) (s : ScanState) :
    Except StringToEuiError ScanState :=
  match hexCharIndex c with
  | some value =>
    if (s.i - s.separators) / 2 > s.result.length - 1 then
      .error (.InvalidLength (inputLen - s.separators))
    else if (s.i - s.separators) % 2 = 0 then
      .ok ⟨s.result.set ((s.i - s.separators) / 2) ((value <<< 4) &&& 0xF0),
           s.i + 1, s.separators, s.separatorType⟩
    else
      .ok ⟨s.result.set ((s.i - s.separators) / 2)
             (s.result.getD ((s.i - s.separators) / 2) 0 ||| (value &&& 0xF)),
           s.i + 1, s.separators, s.separatorType⟩
  | none =>
    if c = ':' ∨ c = '-' then
      if s.i = 0 ∨ s.i = inputLen ∨ (s.i + 1) % 3 ≠ 0 then
        .error .InvalidSeparatorPlace
      else
        match s.separatorType with
        | some t =>
          if t ≠ c then .error .OnlyOneSeparatorTypeExpected
          else .ok ⟨s.result, s.i + 1, s.separators + 1, some t⟩
        | none => .ok ⟨s.result, s.i + 1, s.separators + 1, some c⟩
    else
      .error (.InvalidChar c)

/-- The character loop of `string_to_eui`, folding `scanStep` left to right. -/
def stringToEuiLoop (inputLen : Nat) :
    List Char → ScanState → Except StringToEuiError ScanState
  | [], s => .ok s
  | c :: rest, s =>
    match scanStep inputLen c s with
    | .ok s' => stringToEuiLoop inputLen rest s'
    | .error e => .error e

/-- `string_to_eui(input, result)` from lib.rs: run the scan loop over the
input starting from index 0, no separators seen, no separator type fixed;
on success the observable outcome is the filled buffer. -/
def string_to_eui (input : List Char) (result : List Nat) :
    Except StringToEuiError (List Nat) :=
  (stringToEuiLoop (utf8Len input) input ⟨result, 0, 0, none⟩).map ScanState.result

/-- `impl TryFrom<&str> for Eui48`: length must be 12 or 17 bytes, then the
scan fills a 6-byte buffer initialised to zero. -/
def eui48TryFrom (value : List Char) : Except StringToEuiError (List Nat) :=
  if utf8Len value ≠ 12 ∧ utf8Len value ≠ 17 then
    .error (.InvalidLength (utf8Len value))
  else
    string_to_eui value (List.replicate 6 0)

/-- `impl TryFrom<&str> for Eui64`: length must be 16 or 23 bytes, then the
scan fills an 8-byte buffer initialised to zero. -/
def eui64TryFrom (value : List Char) : Except StringToEuiError (List Nat) :=
  if utf8Len value ≠ 16 ∧ utf8Len value ≠ 23 then
    .error (.InvalidLength (utf8Len value))
  else
    string_to_eui value (List.replicate 8 0)

/-- The body of the `to_hex_string!` macro: for each byte, emit a `'-'`
separator unless it is the first byte, then the two uppercase hex digits of
its high and low nibble. `i` is the enumeration index. -/
def to_hex_string_aux : List Nat → Nat → List Char
  | [], _ => []
  | byte :: rest, i =>
    (if i ≠ 0 then ['-'] else []) ++
      [UPPERCASE_HEX_CHARS.getD (byte >>> 4) ' ',
       UPPERCASE_HEX_CHARS.getD (byte &&& 0xF) ' '] ++
      to_hex_string_aux rest (i + 1)

/-- `Eui48::to_string` / `Eui64::to_string` (the `to_hex_string!` macro
applied to the byte array). -/
def to_hex_string (bytes : List Nat) : List Char := to_hex_string_aux bytes 0

/-- `impl From<u64> for Eui48`: big-endian extraction of the low 6 bytes. -/
def eui48FromU64 (value : Nat) : List Nat :=
  [(value >>> 40) &&& 0xFF, (value >>> 32) &&& 0xFF, (value >>> 24) &&& 0xFF,
   (value >>> 16) &&& 0xFF, (value >>> 8) &&& 0xFF, value &&& 0xFF]

/-- `impl From<u64> for Eui64`: `u64::to_be_bytes`. -/
def eui64FromU64 (value : Nat) : List Nat :=
  [(value >>> 56) &&& 0xFF, (value >>> 48) &&& 0xFF, (value >>> 40) &&& 0xFF,
   (value >>> 32) &&& 0xFF, (value >>> 24) &&& 0xFF, (value >>> 16) &&& 0xFF,
   (value >>> 8) &&& 0xFF, value &&& 0xFF]

/-- `impl From<Eui48> for u64`: big-endian composition by shifted addition. -/
def u64FromEui48 (data : List Nat) : Nat :=
  ((data.getD 0 0) <<< 40) + ((data.getD 1 0) <<< 32) + ((data.getD 2 0) <<< 24) +
  ((data.getD 3 0) <<< 16) + ((data.getD 4 0) <<< 8) + data.getD 5 0

/-- `impl From<Eui64> for u64`: `u64::from_be_bytes`. -/
def u64FromEui64 (data : List Nat) : Nat :=
  ((data.getD 0 0) <<< 56) + ((data.getD 1 0) <<< 48) + ((data.getD 2 0) <<< 40) +
  ((data.getD 3 0) <<< 32) + ((data.getD 4 0) <<< 24) + ((data.getD 5 0) <<< 16) +
  ((data.getD 6 0) <<< 8) + data.getD 7 0

/-- `impl From<Eui48> for Eui64` (lib.rs lines 187-201): a zeroed 8-byte
buffer, `data[i] = eui48[i]` for `i` in `0..3` and `data[i] = eui48[i-2]`
for `i` in `5..8`, the two loops unrolled. -/
def eui64FromEui48 (eui48 : List Nat) : List Nat :=
  let data := List.replicate 8 0
  let data := data.set 0 (eui48.getD 0 0)
  let data := data.set 1 (eui48.getD 1 0)
  let data := data.set 2 (eui48.getD 2 0)
  let data := data.set 5 (eui48.getD 3 0)
  let data := data.set 6 (eui48.getD 4 0)
  let data := data.set 7 (eui48.getD 5 0)
  data

/-- Number of characters of the input that `string_to_eui` classifies as hex
digits. -/
def countHexDigits (cs : List Char) : Nat :=
  (cs.filter (fun c => (hexCharIndex c).isSome)).length

end Eui

namespace Eui

lemma and_255_eq_mod (x : Nat) : x &&& 255 = x % 256 := by
  have h := Nat.and_pow_two_sub_one_eq_mod x 8
  norm_num at h
  exact h

lemma shiftRight_eq_div (x n : Nat) : x >>> n = x / 2 ^ n :=
  Nat.shiftRight_eq_div_pow x n

/-- C7: the `From<Eui48> for Eui64` conversion copies the first three bytes
to the front and the last three bytes to the back, zero-filling indices 3
and 4; in particular `Eui48::from(85204980412143)` converts to the `Eui64`
whose canonical text is `"4D-7E-54-00-00-97-2E-EF"`. -/
theorem c7_eui48_to_eui64_mapping :
    (∀ b0 b1 b2 b3 b4 b5 : Nat,
      eui64FromEui48 [b0, b1, b2, b3, b4, b5] = [b0, b1, b2, 0, 0, b3, b4, b5]) ∧
    to_hex_string (eui64FromEui48 (eui48FromU64 85204980412143)) =
      "4D-7E-54-00-00-97-2E-EF".toList := by
  constructor
  · intro b0 b1 b2 b3 b4 b5
    rfl
  · rfl

/-- C8: composing bytes to an integer big-endian and splitting the integer
back into bytes is the identity, for both widths. -/
theorem c8_integer_roundtrip :
    (∀ b0 b1 b2 b3 b4 b5 : Nat,
      b0 < 256 ∧ b1 < 256 ∧ b2 < 256 ∧ b3 < 256 ∧ b4 < 256 ∧ b5 < 256 →
      eui48FromU64 (u64FromEui48 [b0, b1, b2, b3, b4, b5]) = [b0, b1, b2, b3, b4, b5]) ∧
    (∀ b0 b1 b2 b3 b4 b5 b6 b7 : Nat,
      b0 < 256 ∧ b1 < 256 ∧ b2 < 256 ∧ b3 < 256 ∧
      b4 < 256 ∧ b5 < 256 ∧ b6 < 256 ∧ b7 < 256 →
      eui64FromU64 (u64FromEui64 [b0, b1, b2, b3, b4, b5, b6, b7]) =
        [b0, b1, b2, b3, b4, b5, b6, b7]) := by
  constructor
  · intro b0 b1 b2 b3 b4 b5 hb
    obtain ⟨h0, h1, h2, h3, h4, h5⟩ := hb
    simp only [eui48FromU64, u64FromEui48, List.getD, List.get?, Option.getD,
      and_255_eq_mod, shiftRight_eq_div, Nat.shiftLeft_eq, List.cons.injEq, and_true]
    norm_num
    omega
  · intro b0 b1 b2 b3 b4 b5 b6 b7 hb
    obtain ⟨h0, h1, h2, h3, h4, h5, h6, h7⟩ := hb
    simp only [eui64FromU64, u64FromEui64, List.getD, List.get?, Option.getD,
      and_255_eq_mod, shiftRight_eq_div, Nat.shiftLeft_eq, List.cons.injEq, and_true]
    norm_num
    omega

theorem c8_witness :
    (77 < 256 ∧ 126 < 256 ∧ 84 < 256 ∧ 151 < 256 ∧ 46 < 256 ∧ 239 < 256) ∧
    eui48FromU64 (u64FromEui48 [77, 126, 84, 151, 46, 239]) =
      [77, 126, 84, 151, 46, 239] :=
  ⟨by decide, c8_integer_roundtrip.1 77 126 84 151 46 239 (by decide)⟩

/-- C10: constructing an `Eui48` from a `u64` keeps only the low 48 bits:
going integer → bytes → integer yields `v % 2^48`, which equals `v` exactly
when `v < 2^48`; larger values are silently truncated. -/
theorem c10_from_u64_truncates (v : Nat) (_hv : v < 2 ^ 64) :
    u64FromEui48 (eui48FromU64 v) = v % 2 ^ 48 ∧
    (u64FromEui48 (eui48FromU64 v) = v ↔ v < 2 ^ 48) := by
  have h : u64FromEui48 (eui48FromU64 v) = v % 2 ^ 48 := by
    simp only [eui48FromU64, u64FromEui48, List.getD, List.get?, Option.getD,
      and_255_eq_mod, shiftRight_eq_div, Nat.shiftLeft_eq]
    norm_num
    omega
  refine ⟨h, ?_⟩
  rw [h]
  constructor
  · intro he
    omega
  · intro hlt
    exact Nat.mod_eq_of_lt hlt

theorem c10_witness :
    (281560250412143 < 2 ^ 64 ∧
      u64FromEui48 (eui48FromU64 281560250412143) = 281560250412143 % 2 ^ 48) ∧
    (2 ^ 63 < 2 ^ 64 ∧ u64FromEui48 (eui48FromU64 (2 ^ 63)) ≠ 2 ^ 63) :=
  ⟨⟨by norm_num, (c10_from_u64_truncates 281560250412143 (by norm_num)).1⟩,
   ⟨by norm_num, by
      have h := (c10_from_u64_truncates (2 ^ 63) (by norm_num)).2
      intro he
      have := h.mp he
      norm_num at this⟩⟩

end Eui

namespace Eui

lemma stringToEuiLoop_append (L : Nat) (pre suf : List Char) (s : ScanState) :
    stringToEuiLoop L (pre ++ suf) s =
      match stringToEuiLoop L pre s with
      | .ok s' => stringToEuiLoop L suf s'
      | .error e => .error e := by
  induction pre generalizing s with
  | nil => simp [stringToEuiLoop]
  | cons c rest ih =>
    simp only [List.cons_append, stringToEuiLoop]
    cases scanStep L c s with
    | ok s' => exact ih s'
    | error e => rfl

lemma stringToEuiLoop_error_split (L : Nat) (cs : List Char) (s : ScanState)
    (e : StringToEuiError) (h : stringToEuiLoop L cs s = .error e) :
    ∃ pre c rest s', cs = pre ++ c :: rest ∧
      stringToEuiLoop L pre s = .ok s' ∧ scanStep L c s' = .error e := by
  induction cs generalizing s with
  | nil => simp [stringToEuiLoop] at h
  | cons c rest ih =>
    rw [stringToEuiLoop] at h
    cases hstep : scanStep L c s with
    | ok s1 =>
      rw [hstep] at h
      obtain ⟨pre', c', rest', s', hsplit, hok, herr⟩ := ih s1 h
      refine ⟨c :: pre', c', rest', s', by simp [hsplit], ?_, herr⟩
      rw [stringToEuiLoop, hstep]
      exact hok
    | error e' =>
      rw [hstep] at h
      obtain rfl : e' = e := by exact (Except.error.inj h)
      exact ⟨[], c, rest, s, rfl, rfl, hstep⟩

lemma scanStep_ok_state (L : Nat) (c : Char) (s s' : ScanState)
    (h : scanStep L c s = .ok s') :
    s'.i = s.i + 1 ∧ s'.result.length = s.result.length ∧
    (s'.separators = s.separators ∨ s'.separators = s.separators + 1) := by
  rcases hc : hexCharIndex c with _ | v
  · simp only [scanStep, hc] at h
    split at h
    · split at h
      · exact absurd h (by simp)
      · rcases hst : s.separatorType with _ | t <;> simp only [hst] at h
        · obtain rfl := Except.ok.inj h
          simp
        · split at h
          · exact absurd h (by simp)
          · obtain rfl := Except.ok.inj h
            simp
    · exact absurd h (by simp)
  · simp only [scanStep, hc] at h
    split at h
    · exact absurd h (by simp)
    · split at h <;> (obtain rfl := Except.ok.inj h; simp)

lemma stringToEuiLoop_ok_state (L : Nat) (cs : List Char) (s s' : ScanState)
    (h : stringToEuiLoop L cs s = .ok s') :
    s'.i = s.i + cs.length ∧ s'.result.length = s.result.length ∧
    s.separators ≤ s'.separators ∧ s'.separators ≤ s.separators + cs.length := by
  induction cs generalizing s with
  | nil =>
    obtain rfl := Except.ok.inj h
    simp
  | cons c rest ih =>
    rw [stringToEuiLoop] at h
    cases hstep : scanStep L c s with
    | ok s1 =>
      rw [hstep] at h
      obtain ⟨hi, hr, hsep⟩ := scanStep_ok_state L c s s1 hstep
      obtain ⟨hi', hr', hsl, hsu⟩ := ih s1 h
      refine ⟨by simp [hi', hi]; omega, by rw [hr', hr], ?_, ?_⟩ <;> simp at * <;> omega
    | error e' =>
      rw [hstep] at h
      exact absurd h (by simp)

lemma hexCharIndex_colon : hexCharIndex ':' = none := by decide

lemma hexCharIndex_hyphen : hexCharIndex '-' = none := by decide

lemma hexCharIndex_getD_hex (n : Nat) (h : n < 16) :
    hexCharIndex (UPPERCASE_HEX_CHARS.getD n ' ') = some n := by
  interval_cases n <;> decide

lemma utf8Size_getD_hex (n : Nat) (h : n < 16) :
    (UPPERCASE_HEX_CHARS.getD n ' ').utf8Size = 1 := by
  interval_cases n <;> decide

set_option maxRecDepth 4096 in
lemma nibble_recombine_fin : ∀ b : Fin 256,
    (((b.val >>> 4) <<< 4) &&& 0xF0) ||| ((b.val &&& 0xF) &&& 0xF) = b.val := by decide

lemma nibble_recombine (b : Nat) (h : b < 256) :
    (((b >>> 4) <<< 4) &&& 0xF0) ||| ((b &&& 0xF) &&& 0xF) = b :=
  nibble_recombine_fin ⟨b, h⟩

lemma shiftRight4_lt (b : Nat) (h : b < 256) : b >>> 4 < 16 := by
  rw [shiftRight_eq_div]
  omega

lemma and15_lt (b : Nat) : b &&& 0xF < 16 :=
  Nat.lt_of_le_of_lt Nat.and_le_right (by norm_num)

lemma utf8Len_nil : utf8Len [] = 0 := rfl

lemma utf8Len_cons (c : Char) (cs : List Char) :
    utf8Len (c :: cs) = c.utf8Size + utf8Len cs := by
  simp [utf8Len]

lemma utf8Len_append (a b : List Char) :
    utf8Len (a ++ b) = utf8Len a + utf8Len b := by
  simp [utf8Len]

lemma length_le_utf8Len (cs : List Char) : cs.length ≤ utf8Len cs := by
  induction cs with
  | nil => simp [utf8Len_nil]
  | cons c rest ih =>
    have := Char.utf8Size_pos c
    rw [utf8Len_cons]
    simp only [List.length_cons]
    omega

lemma set_append_length (l₁ l₂ : List Nat) (v : Nat) :
    (l₁ ++ l₂).set l₁.length v = l₁ ++ l₂.set 0 v := by
  induction l₁ with
  | nil => rfl
  | cons a t ih => simp [List.set, ih]

lemma getD_append_length (l₁ l₂ : List Nat) (d : Nat) :
    (l₁ ++ l₂).getD l₁.length d = l₂.getD 0 d := by
  induction l₁ with
  | nil => rfl
  | cons a t ih => simpa [List.getD] using ih

end Eui

namespace Eui

lemma utf8Size_hyphen : ('-').utf8Size = 1 := by decide

lemma utf8Len_to_hex_string_aux (bytes : List Nat) :
    ∀ k, (∀ b ∈ bytes, b < 256) → k ≠ 0 →
    utf8Len (to_hex_string_aux bytes k) = 3 * bytes.length := by
  induction bytes with
  | nil =>
    intro k hb hk
    simp [to_hex_string_aux, utf8Len_nil]
  | cons b rest ih =>
    intro k hb hk
    have hb' : b < 256 := hb b (by simp)
    rw [to_hex_string_aux, if_pos hk, utf8Len_append, utf8Len_append,
        ih (k + 1) (fun x hx => hb x (by simp [hx])) (by omega)]
    rw [show utf8Len ['-'] = 1 from by rw [utf8Len_cons, utf8Size_hyphen, utf8Len_nil]]
    rw [utf8Len_cons, utf8Len_cons, utf8Len_nil,
        utf8Size_getD_hex _ (shiftRight4_lt b hb'), utf8Size_getD_hex _ (and15_lt b)]
    simp only [List.length_cons]
    omega

lemma utf8Len_to_hex_string (b : Nat) (rest : List Nat)
    (hb : ∀ x ∈ b :: rest, x < 256) :
    utf8Len (to_hex_string (b :: rest)) = 3 * (b :: rest).length - 1 := by
  have hb' : b < 256 := hb b (by simp)
  rw [to_hex_string, to_hex_string_aux, if_neg (by simp), utf8Len_append, utf8Len_append,
      utf8Len_to_hex_string_aux rest 1 (fun x hx => hb x (by simp [hx])) (by omega)]
  rw [utf8Len_nil, utf8Len_cons, utf8Len_cons, utf8Len_nil,
      utf8Size_getD_hex _ (shiftRight4_lt b hb'), utf8Size_getD_hex _ (and15_lt b)]
  simp only [List.length_cons]
  omega

lemma scanStep_sep_first (L : Nat) (c : Char) (s : ScanState)
    (hc : hexCharIndex c = none) (hsep : c = ':' ∨ c = '-')
    (hplace : ¬(s.i = 0 ∨ s.i = L ∨ (s.i + 1) % 3 ≠ 0))
    (hst : s.separatorType = none) :
    scanStep L c s = .ok ⟨s.result, s.i + 1, s.separators + 1, some c⟩ := by
  simp only [scanStep, hc, if_pos hsep, if_neg hplace, hst]

lemma scanStep_sep_same (L : Nat) (c : Char) (s : ScanState) (t : Char)
    (hc : hexCharIndex c = none) (hsep : c = ':' ∨ c = '-')
    (hplace : ¬(s.i = 0 ∨ s.i = L ∨ (s.i + 1) % 3 ≠ 0))
    (hst : s.separatorType = some t) (ht : t = c) :
    scanStep L c s = .ok ⟨s.result, s.i + 1, s.separators + 1, some t⟩ := by
  simp only [scanStep, hc, if_pos hsep, if_neg hplace, hst]
  rw [if_neg (by simp [ht])]

lemma scanStep_encode_sep (L : Nat) (res : List Nat) (k : Nat) (st : Option Char)
    (hst : st = none ∨ st = some '-') (hk : 1 ≤ k)
    (hiL : 3 * k - 1 ≠ L) :
    scanStep L '-' ⟨res, 3 * k - 1, k - 1, st⟩ =
      .ok ⟨res, 3 * k, k, some '-'⟩ := by
  have hplace : ¬((3 * k - 1 = 0) ∨ (3 * k - 1 = L) ∨ ((3 * k - 1 + 1) % 3 ≠ 0)) := by
    push_neg
    refine ⟨by omega, hiL, by omega⟩
  have h2 : 3 * k - 1 + 1 = 3 * k := by omega
  have h3 : k - 1 + 1 = k := by omega
  rcases hst with rfl | rfl
  · rw [scanStep_sep_first L '-' ⟨res, 3 * k - 1, k - 1, none⟩ hexCharIndex_hyphen
        (Or.inr rfl) hplace rfl]
    dsimp only
    rw [h2, h3]
  · rw [scanStep_sep_same L '-' ⟨res, 3 * k - 1, k - 1, some '-'⟩ '-' hexCharIndex_hyphen
        (Or.inr rfl) hplace rfl rfl]
    dsimp only
    rw [h2, h3]

lemma scanStep_encode_hi (L : Nat) (b : Nat) (hb : b < 256)
    (done tailz : List Nat) (st : Option Char) :
    scanStep L (UPPERCASE_HEX_CHARS.getD (b >>> 4) ' ')
      ⟨done ++ 0 :: tailz, 3 * done.length, done.length, st⟩ =
      .ok ⟨done ++ (((b >>> 4) <<< 4) &&& 0xF0) :: tailz,
           3 * done.length + 1, done.length, st⟩ := by
  simp only [scanStep, hexCharIndex_getD_hex _ (shiftRight4_lt b hb)]
  have hidx : (3 * done.length - done.length) / 2 = done.length := by omega
  rw [if_neg (by rw [hidx]; simp only [List.length_append, List.length_cons]; omega),
      if_pos (by omega), hidx, set_append_length]
  rfl

lemma scanStep_encode_lo (L : Nat) (b : Nat) (hb : b < 256)
    (done tailz : List Nat) (st : Option Char) :
    scanStep L (UPPERCASE_HEX_CHARS.getD (b &&& 0xF) ' ')
      ⟨done ++ (((b >>> 4) <<< 4) &&& 0xF0) :: tailz,
       3 * done.length + 1, done.length, st⟩ =
      .ok ⟨done ++ b :: tailz, 3 * done.length + 2, done.length, st⟩ := by
  simp only [scanStep, hexCharIndex_getD_hex _ (and15_lt b)]
  have hidx : (3 * done.length + 1 - done.length) / 2 = done.length := by omega
  rw [if_neg (by rw [hidx]; simp only [List.length_append, List.length_cons]; omega),
      if_neg (by omega), hidx, set_append_length, getD_append_length]
  have hg : ((((b >>> 4) <<< 4) &&& 0xF0) :: tailz).getD 0 0 =
      (((b >>> 4) <<< 4) &&& 0xF0) := rfl
  rw [hg, nibble_recombine b hb]
  rfl

end Eui

namespace Eui

lemma stringToEuiLoop_cons_ok (L : Nat) (c : Char) (rest : List Char)
    (s s₁ : ScanState) (h : scanStep L c s = .ok s₁) :
    stringToEuiLoop L (c :: rest) s = stringToEuiLoop L rest s₁ := by
  show (match scanStep L c s with
    | .ok s' => stringToEuiLoop L rest s'
    | .error e => .error e) = stringToEuiLoop L rest s₁
  rw [h]

lemma stringToEuiLoop_cons_error (L : Nat) (c : Char) (rest : List Char)
    (s : ScanState) (e : StringToEuiError) (h : scanStep L c s = .error e) :
    stringToEuiLoop L (c :: rest) s = .error e := by
  show (match scanStep L c s with
    | .ok s' => stringToEuiLoop L rest s'
    | .error e => .error e) = .error e
  rw [h]

lemma stringToEuiLoop_encode_tail (bytes : List Nat) :
    ∀ (done : List Nat) (st : Option Char) (L : Nat),
    (∀ b ∈ bytes, b < 256) →
    (st = none ∨ st = some '-') →
    1 ≤ done.length →
    L = 3 * (done.length + bytes.length) - 1 →
    ∃ s', stringToEuiLoop L (to_hex_string_aux bytes done.length)
        ⟨done ++ List.replicate bytes.length 0,
         3 * done.length - 1, done.length - 1, st⟩ = .ok s' ∧
      s'.result = done ++ bytes := by
  induction bytes with
  | nil =>
    intro done st L hb hst hk hL
    refine ⟨_, rfl, ?_⟩
    simp
  | cons b rest ih =>
    intro done st L hb hst hk hL
    have hb' : b < 256 := hb b (by simp)
    rw [to_hex_string_aux, if_pos (by omega)]
    simp only [List.length_cons, List.replicate_succ, List.cons_append, List.nil_append]
    rw [stringToEuiLoop_cons_ok _ _ _ _ _
        (scanStep_encode_sep L (done ++ 0 :: List.replicate rest.length 0) done.length st hst hk
          (by simp only [List.length_cons] at hL; omega))]
    rw [stringToEuiLoop_cons_ok _ _ _ _ _
        (scanStep_encode_hi L b hb' done (List.replicate rest.length 0) (some '-'))]
    rw [stringToEuiLoop_cons_ok _ _ _ _ _
        (scanStep_encode_lo L b hb' done (List.replicate rest.length 0) (some '-'))]
    have hres : done ++ b :: List.replicate rest.length 0 =
        (done ++ [b]) ++ List.replicate rest.length 0 := by
      simp
    have hi2 : 3 * done.length + 2 = 3 * (done ++ [b]).length - 1 := by
      simp only [List.length_append, List.length_cons, List.length_nil]
      omega
    have hsep2 : done.length = (done ++ [b]).length - 1 := by
      simp
    rw [hres, hi2, hsep2,
        show (done ++ [b]).length - 1 + 1 = (done ++ [b]).length from by
          simp only [List.length_append, List.length_cons, List.length_nil]
          omega]
    obtain ⟨s', hloop, hresult⟩ := ih (done ++ [b]) (some '-') L
      (fun x hx => hb x (by simp [hx]))
      (Or.inr rfl) (by simp)
      (by simp only [List.length_append, List.length_cons, List.length_nil] at hL ⊢; omega)
    refine ⟨s', hloop, ?_⟩
    rw [hresult]
    simp

end Eui

namespace Eui

lemma string_to_eui_encode (b : Nat) (rest : List Nat)
    (hb : ∀ x ∈ b :: rest, x < 256) :
    string_to_eui (to_hex_string (b :: rest)) (List.replicate (b :: rest).length 0) =
      .ok (b :: rest) := by
  have hb' : b < 256 := hb b (by simp)
  have hL := utf8Len_to_hex_string b rest hb
  unfold string_to_eui
  rw [hL]
  rw [to_hex_string, to_hex_string_aux, if_neg (by simp)]
  simp only [List.nil_append, List.cons_append]
  rw [show (⟨List.replicate (b :: rest).length 0, 0, 0, none⟩ : ScanState) =
      ⟨([] : List Nat) ++ 0 :: List.replicate rest.length 0,
       3 * ([] : List Nat).length, ([] : List Nat).length, none⟩ from rfl]
  rw [stringToEuiLoop_cons_ok _ _ _ _ _
      (scanStep_encode_hi (3 * (b :: rest).length - 1) b hb' []
        (List.replicate rest.length 0) none)]
  rw [stringToEuiLoop_cons_ok _ _ _ _ _
      (scanStep_encode_lo (3 * (b :: rest).length - 1) b hb' []
        (List.replicate rest.length 0) none)]
  rw [show (⟨([] : List Nat) ++ b :: List.replicate rest.length 0,
       3 * ([] : List Nat).length + 2, ([] : List Nat).length, none⟩ : ScanState) =
      ⟨[b] ++ List.replicate rest.length 0, 3 * [b].length - 1,
       [b].length - 1, none⟩ from rfl]
  rw [show to_hex_string_aux rest (0 + 1) = to_hex_string_aux rest [b].length from rfl]
  obtain ⟨s', hloop, hresult⟩ := stringToEuiLoop_encode_tail rest [b] none
      (3 * (b :: rest).length - 1)
      (fun x hx => hb x (by simp [hx])) (Or.inl rfl) (by simp)
      (by simp only [List.length_cons, List.length_nil]; omega)
  rw [hloop]
  simp [Except.map, hresult]

/-- C1: round trip through text: decoding the canonical string produced by
the encoder succeeds and returns the original bytes, for every 6-byte
`Eui48` and every 8-byte `Eui64`; the encoder's output is always accepted
by the decoder. -/
theorem c1_to_string_decode_roundtrip :
    (∀ bytes : List Nat, bytes.length = 6 → (∀ b ∈ bytes, b < 256) →
      eui48TryFrom (to_hex_string bytes) = .ok bytes) ∧
    (∀ bytes : List Nat, bytes.length = 8 → (∀ b ∈ bytes, b < 256) →
      eui64TryFrom (to_hex_string bytes) = .ok bytes) := by
  constructor
  · intro bytes hlen hb
    obtain ⟨b, rest, rfl⟩ : ∃ b rest, bytes = b :: rest := by
      cases bytes with
      | nil => simp at hlen
      | cons b rest => exact ⟨b, rest, rfl⟩
    have hL := utf8Len_to_hex_string b rest hb
    rw [eui48TryFrom, if_neg (by rw [hL, hlen]; norm_num)]
    rw [show (List.replicate 6 0 : List Nat) = List.replicate (b :: rest).length 0 from by
      rw [hlen]]
    exact string_to_eui_encode b rest hb
  · intro bytes hlen hb
    obtain ⟨b, rest, rfl⟩ : ∃ b rest, bytes = b :: rest := by
      cases bytes with
      | nil => simp at hlen
      | cons b rest => exact ⟨b, rest, rfl⟩
    have hL := utf8Len_to_hex_string b rest hb
    rw [eui64TryFrom, if_neg (by rw [hL, hlen]; norm_num)]
    rw [show (List.replicate 8 0 : List Nat) = List.replicate (b :: rest).length 0 from by
      rw [hlen]]
    exact string_to_eui_encode b rest hb

theorem c1_witness :
    (([77, 126, 84, 151, 46, 239] : List Nat).length = 6 ∧
      ∀ b ∈ ([77, 126, 84, 151, 46, 239] : List Nat), b < 256) ∧
    eui48TryFrom (to_hex_string [77, 126, 84, 151, 46, 239]) =
      .ok [77, 126, 84, 151, 46, 239] :=
  ⟨⟨rfl, by decide⟩,
   c1_to_string_decode_roundtrip.1 [77, 126, 84, 151, 46, 239] rfl (by decide)⟩

end Eui

namespace Eui

lemma scanStep_ok_digit (L : Nat) (c : Char) (s s1 : ScanState) (v : Nat)
    (hc : hexCharIndex c = some v) (h : scanStep L c s = .ok s1) :
    (s.i - s.separators) / 2 ≤ s.result.length - 1 ∧
    s1.separators = s.separators ∧ s1.i = s.i + 1 ∧
    s1.result.length = s.result.length := by
  simp only [scanStep, hc] at h
  split at h
  · exact absurd h (by simp)
  · split at h <;> obtain rfl := Except.ok.inj h <;>
      refine ⟨by omega, rfl, rfl, by simp⟩

lemma scanStep_ok_nondigit (L : Nat) (c : Char) (s s1 : ScanState)
    (hc : hexCharIndex c = none) (h : scanStep L c s = .ok s1) :
    s1.separators = s.separators + 1 ∧ s1.i = s.i + 1 ∧ s1.result = s.result := by
  simp only [scanStep, hc] at h
  split at h
  · split at h
    · exact absurd h (by simp)
    · rcases hst : s.separatorType with _ | t <;> simp only [hst] at h
      · obtain rfl := Except.ok.inj h
        exact ⟨rfl, rfl, rfl⟩
      · split at h
        · exact absurd h (by simp)
        · obtain rfl := Except.ok.inj h
          exact ⟨rfl, rfl, rfl⟩
  · exact absurd h (by simp)

lemma countHexDigits_cons_digit (c : Char) (cs : List Char) (v : Nat)
    (hc : hexCharIndex c = some v) :
    countHexDigits (c :: cs) = countHexDigits cs + 1 := by
  simp [countHexDigits, List.filter, hc]

lemma countHexDigits_cons_nondigit (c : Char) (cs : List Char)
    (hc : hexCharIndex c = none) :
    countHexDigits (c :: cs) = countHexDigits cs := by
  simp [countHexDigits, List.filter, hc]

lemma stringToEuiLoop_digit_bound (L : Nat) (cs : List Char) :
    ∀ (s s' : ScanState), 0 < s.result.length →
    s.separators ≤ s.i →
    s.i - s.separators ≤ 2 * s.result.length →
    stringToEuiLoop L cs s = .ok s' →
    countHexDigits cs + (s.i - s.separators) ≤ 2 * s.result.length := by
  induction cs with
  | nil =>
    intro s s' h0 hsep hcp h
    have : countHexDigits [] = 0 := rfl
    omega
  | cons c rest ih =>
    intro s s' h0 hsep hcp h
    cases hstep : scanStep L c s with
    | error e =>
      rw [stringToEuiLoop_cons_error _ _ _ _ _ hstep] at h
      exact absurd h (by simp)
    | ok s1 =>
      rw [stringToEuiLoop_cons_ok _ _ _ _ _ hstep] at h
      rcases hc : hexCharIndex c with _ | v
      · obtain ⟨hs1, hi1, hr1⟩ := scanStep_ok_nondigit L c s s1 hc hstep
        have hrec := ih s1 s' (by rw [hr1]; exact h0) (by omega)
          (by rw [hr1]; omega) h
        rw [countHexDigits_cons_nondigit c rest hc]
        rw [hr1] at hrec
        omega
      · obtain ⟨hbound, hs1, hi1, hr1⟩ := scanStep_ok_digit L c s s1 v hc hstep
        have hcp1 : s.i - s.separators ≤ 2 * s.result.length - 1 := by omega
        have hrec := ih s1 s' (by rw [hr1]; exact h0) (by omega)
          (by rw [hr1]; omega) h
        rw [countHexDigits_cons_digit c rest v hc]
        rw [hr1] at hrec
        omega

/-- C2 counterexample: the 12-byte input `"4d-7e-54-97e"` contains only 9
hex digits yet is accepted, leaving the last byte at its default zero and
the low nibble of byte 4 unwritten — so an accepted input need not contain
exactly 12 hex digits, and may leave nibbles at zero. -/
theorem c2_counterexample :
    eui48TryFrom ("4d-7e-54-97e".toList) = .ok [77, 126, 84, 151, 224, 0] ∧
    countHexDigits ("4d-7e-54-97e".toList) = 9 := ⟨rfl, rfl⟩

/-- C2 (amended): for every accepted input, the number of characters the
decoder classifies as hex digits is at most `2*N` (12 for `Eui48`, 16 for
`Eui64`); the original claim that it is exactly `2*N`, with every nibble
written, fails (see the counterexample). -/
theorem c2_hex_digit_upper_bound :
    (∀ input r, eui48TryFrom input = .ok r → countHexDigits input ≤ 12) ∧
    (∀ input r, eui64TryFrom input = .ok r → countHexDigits input ≤ 16) := by
  constructor
  · intro input r h
    rw [eui48TryFrom] at h
    split at h
    · exact absurd h (by simp)
    · rw [string_to_eui] at h
      cases hloop : stringToEuiLoop (utf8Len input) input ⟨List.replicate 6 0, 0, 0, none⟩ with
      | error e => rw [hloop] at h; exact absurd h (by simp [Except.map])
      | ok s' =>
        have := stringToEuiLoop_digit_bound (utf8Len input) input
          ⟨List.replicate 6 0, 0, 0, none⟩ s' (by simp) (by simp) (by simp) hloop
        simpa using this
  · intro input r h
    rw [eui64TryFrom] at h
    split at h
    · exact absurd h (by simp)
    · rw [string_to_eui] at h
      cases hloop : stringToEuiLoop (utf8Len input) input ⟨List.replicate 8 0, 0, 0, none⟩ with
      | error e => rw [hloop] at h; exact absurd h (by simp [Except.map])
      | ok s' =>
        have := stringToEuiLoop_digit_bound (utf8Len input) input
          ⟨List.replicate 8 0, 0, 0, none⟩ s' (by simp) (by simp) (by simp) hloop
        simpa using this

theorem c2_witness :
    eui48TryFrom ("4D7E54972EEF".toList) = .ok [77, 126, 84, 151, 46, 239] ∧
    countHexDigits ("4D7E54972EEF".toList) ≤ 12 :=
  ⟨rfl, c2_hex_digit_upper_bound.1 ("4D7E54972EEF".toList) [77, 126, 84, 151, 46, 239] rfl⟩

/-- C3: the claim says a trailing separator is always rejected with
InvalidSeparatorPlace, but the code accepts `"4d-7e-54-97-"` (a 12-byte
input ending in a separator): the guard `i == input.len()` compares a
character index, which is always smaller than the byte length, so it never
fires, and at index 11 the check `(i + 1) % 3 != 0` passes. -/
theorem c3_trailing_separator_accepted :
    eui48TryFrom ("4d-7e-54-97-".toList) = .ok [77, 126, 84, 151, 0, 0] := rfl

end Eui

namespace Eui

lemma scanStep_digit_overflow (L : Nat) (c : Char) (s : ScanState) (v : Nat)
    (hc : hexCharIndex c = some v)
    (hbound : (s.i - s.separators) / 2 > s.result.length - 1) :
    scanStep L c s = .error (.InvalidLength (L - s.separators)) := by
  simp only [scanStep, hc, if_pos hbound]

lemma scanStep_error_invalidLength (L : Nat) (c : Char) (s : ScanState) (l : Nat)
    (h : scanStep L c s = .error (.InvalidLength l)) :
    ∃ v, hexCharIndex c = some v ∧
      (s.i - s.separators) / 2 > s.result.length - 1 ∧ l = L - s.separators := by
  rcases hc : hexCharIndex c with _ | v <;> simp only [scanStep, hc] at h
  · split at h
    · split at h
      · simp at h
      · rcases hst : s.separatorType with _ | t <;> simp only [hst] at h
        · simp at h
        · split at h <;> simp at h
    · simp at h
  · split at h
    · refine ⟨v, rfl, by omega, ?_⟩
      have := (Except.error.inj h)
      exact (StringToEuiError.InvalidLength.inj this).symm
    · split at h <;> simp at h

lemma map_result_error (x : Except StringToEuiError ScanState) (e : StringToEuiError)
    (h : x.map ScanState.result = .error e) : x = .error e := by
  cases x with
  | ok s => simp [Except.map] at h
  | error e' => simpa [Except.map] using h

/-- C4: decoding fails with InvalidLength exactly in two situations, at
both widths: (a) upfront, when the byte length of the input is neither
`2*N` nor `3*N-1`, carrying the actual input length (the empty string
gives length 0, and 10- and 16-character strings against the 6-byte width
give those lengths); (b) mid-scan, when a hex digit's computed byte index
would exceed the output buffer, carrying the input length minus the
separators seen so far (a 17-character all-hex string against the 6-byte
width gives length 17, a 23-character all-hex string against the 8-byte
width gives length 23). Conversely, every InvalidLength error of either
decoder arises in one of these two ways. -/
theorem c4_invalid_length :
    (∀ input, utf8Len input ≠ 12 → utf8Len input ≠ 17 →
      eui48TryFrom input = .error (.InvalidLength (utf8Len input))) ∧
    (∀ input, utf8Len input ≠ 16 → utf8Len input ≠ 23 →
      eui64TryFrom input = .error (.InvalidLength (utf8Len input))) ∧
    (∀ pre (c : Char) rest s' v,
      (utf8Len (pre ++ c :: rest) = 12 ∨ utf8Len (pre ++ c :: rest) = 17) →
      stringToEuiLoop (utf8Len (pre ++ c :: rest)) pre
        ⟨List.replicate 6 0, 0, 0, none⟩ = .ok s' →
      hexCharIndex c = some v →
      (s'.i - s'.separators) / 2 > s'.result.length - 1 →
      eui48TryFrom (pre ++ c :: rest) =
        .error (.InvalidLength (utf8Len (pre ++ c :: rest) - s'.separators))) ∧
    (∀ pre (c : Char) rest s' v,
      (utf8Len (pre ++ c :: rest) = 16 ∨ utf8Len (pre ++ c :: rest) = 23) →
      stringToEuiLoop (utf8Len (pre ++ c :: rest)) pre
        ⟨List.replicate 8 0, 0, 0, none⟩ = .ok s' →
      hexCharIndex c = some v →
      (s'.i - s'.separators) / 2 > s'.result.length - 1 →
      eui64TryFrom (pre ++ c :: rest) =
        .error (.InvalidLength (utf8Len (pre ++ c :: rest) - s'.separators))) ∧
    (∀ input l, eui48TryFrom input = .error (.InvalidLength l) →
      ((utf8Len input ≠ 12 ∧ utf8Len input ≠ 17 ∧ l = utf8Len input) ∨
        ∃ pre c rest s' v, input = pre ++ c :: rest ∧
          stringToEuiLoop (utf8Len input) pre ⟨List.replicate 6 0, 0, 0, none⟩ = .ok s' ∧
          hexCharIndex c = some v ∧
          (s'.i - s'.separators) / 2 > s'.result.length - 1 ∧
          l = utf8Len input - s'.separators)) ∧
    (∀ input l, eui64TryFrom input = .error (.InvalidLength l) →
      ((utf8Len input ≠ 16 ∧ utf8Len input ≠ 23 ∧ l = utf8Len input) ∨
        ∃ pre c rest s' v, input = pre ++ c :: rest ∧
          stringToEuiLoop (utf8Len input) pre ⟨List.replicate 8 0, 0, 0, none⟩ = .ok s' ∧
          hexCharIndex c = some v ∧
          (s'.i - s'.separators) / 2 > s'.result.length - 1 ∧
          l = utf8Len input - s'.separators)) ∧
    eui48TryFrom [] = .error (.InvalidLength 0) ∧
    eui48TryFrom ("4d7e54972e".toList) = .error (.InvalidLength 10) ∧
    eui48TryFrom ("4d7e54972eefef4d".toList) = .error (.InvalidLength 16) ∧
    eui48TryFrom ("4d7e54972eefef4da".toList) = .error (.InvalidLength 17) ∧
    eui64TryFrom ("4d7e54972eefef4d7e54972".toList) = .error (.InvalidLength 23) := by
  refine ⟨?_, ?_, ?_, ?_, ?_, ?_, rfl, rfl, rfl, rfl, rfl⟩
  · intro input h12 h17
    rw [eui48TryFrom, if_pos ⟨h12, h17⟩]
  · intro input h16 h23
    rw [eui64TryFrom, if_pos ⟨h16, h23⟩]
  · intro pre c rest s' v hlen hpre hc hbound
    rw [eui48TryFrom, if_neg (by rcases hlen with h | h <;> simp [h])]
    rw [string_to_eui, stringToEuiLoop_append]
    simp only [hpre]
    rw [stringToEuiLoop_cons_error _ _ _ _ _
        (scanStep_digit_overflow (utf8Len (pre ++ c :: rest)) c s' v hc hbound)]
    rfl
  · intro pre c rest s' v hlen hpre hc hbound
    rw [eui64TryFrom, if_neg (by rcases hlen with h | h <;> simp [h])]
    rw [string_to_eui, stringToEuiLoop_append]
    simp only [hpre]
    rw [stringToEuiLoop_cons_error _ _ _ _ _
        (scanStep_digit_overflow (utf8Len (pre ++ c :: rest)) c s' v hc hbound)]
    rfl
  · intro input l h
    rw [eui48TryFrom] at h
    split at h
    · rename_i hcond
      obtain rfl : utf8Len input = l :=
        StringToEuiError.InvalidLength.inj (Except.error.inj h)
      exact Or.inl ⟨hcond.1, hcond.2, rfl⟩
    · rw [string_to_eui] at h
      have hloop := map_result_error _ _ h
      obtain ⟨pre, c, rest, s', hsplit, hpre, hstep⟩ :=
        stringToEuiLoop_error_split (utf8Len input) input
          ⟨List.replicate 6 0, 0, 0, none⟩ (.InvalidLength l) hloop
      obtain ⟨v, hc, hbound, hl⟩ := scanStep_error_invalidLength _ _ _ _ hstep
      exact Or.inr ⟨pre, c, rest, s', v, hsplit, hpre, hc, hbound, hl⟩
  · intro input l h
    rw [eui64TryFrom] at h
    split at h
    · rename_i hcond
      obtain rfl : utf8Len input = l :=
        StringToEuiError.InvalidLength.inj (Except.error.inj h)
      exact Or.inl ⟨hcond.1, hcond.2, rfl⟩
    · rw [string_to_eui] at h
      have hloop := map_result_error _ _ h
      obtain ⟨pre, c, rest, s', hsplit, hpre, hstep⟩ :=
        stringToEuiLoop_error_split (utf8Len input) input
          ⟨List.replicate 8 0, 0, 0, none⟩ (.InvalidLength l) hloop
      obtain ⟨v, hc, hbound, hl⟩ := scanStep_error_invalidLength _ _ _ _ hstep
      exact Or.inr ⟨pre, c, rest, s', v, hsplit, hpre, hc, hbound, hl⟩

theorem c4_witness :
    (utf8Len ("abc".toList) ≠ 12 ∧ utf8Len ("abc".toList) ≠ 17) ∧
    eui48TryFrom ("abc".toList) = .error (.InvalidLength (utf8Len ("abc".toList))) :=
  ⟨⟨by decide, by decide⟩, c4_invalid_length.1 ("abc".toList) (by decide) (by decide)⟩

end Eui

namespace Eui

lemma scanStep_invalid_char (L : Nat) (c : Char) (s : ScanState)
    (hc : hexCharIndex c = none) (h1 : c ≠ ':') (h2 : c ≠ '-') :
    scanStep L c s = .error (.InvalidChar c) := by
  simp only [scanStep, hc, if_neg (not_or.mpr ⟨h1, h2⟩)]

/-- C5 counterexample: `'Ł'` (U+0141) is neither a hex digit `0-9A-Fa-f`
nor a separator, and it is the only rule-violating character of the
12-byte input `"4d7e5497Ł2e"`, yet decoding succeeds instead of failing
with InvalidChar: the Rust cast `c as u8` truncates U+0141 to 0x41
(`'A'`), so the character is interpreted as the hex digit A. -/
theorem c5_counterexample :
    eui48TryFrom ("4d7e5497Ł2e".toList) = .ok [77, 126, 84, 151, 162, 224] ∧
    hexCharIndex 'Ł' = some 10 ∧ utf8Len ("4d7e5497Ł2e".toList) = 12 :=
  ⟨rfl, rfl, rfl⟩

/-- C5 (amended): for every input of an accepted length, if the scan
reaches (processes every character before it without error) a character
whose code point truncated to 8 bits is not an ASCII hex digit and which
is not `':'` or `'-'`, decoding fails with InvalidChar carrying that
character. The original claim's notion of "hex digit" must be weakened to
the code's truncated-byte classification: characters whose low byte
collides with an ASCII hex digit (such as `'Ł'`) are accepted as digits
(see the counterexample). -/
theorem c5_invalid_char :
    (∀ pre (c : Char) rest s',
      (utf8Len (pre ++ c :: rest) = 12 ∨ utf8Len (pre ++ c :: rest) = 17) →
      stringToEuiLoop (utf8Len (pre ++ c :: rest)) pre
        ⟨List.replicate 6 0, 0, 0, none⟩ = .ok s' →
      hexCharIndex c = none → c ≠ ':' → c ≠ '-' →
      eui48TryFrom (pre ++ c :: rest) = .error (.InvalidChar c)) ∧
    (∀ pre (c : Char) rest s',
      (utf8Len (pre ++ c :: rest) = 16 ∨ utf8Len (pre ++ c :: rest) = 23) →
      stringToEuiLoop (utf8Len (pre ++ c :: rest)) pre
        ⟨List.replicate 8 0, 0, 0, none⟩ = .ok s' →
      hexCharIndex c = none → c ≠ ':' → c ≠ '-' →
      eui64TryFrom (pre ++ c :: rest) = .error (.InvalidChar c)) ∧
    eui48TryFrom ("ad7e54972eja".toList) = .error (.InvalidChar 'j') := by
  refine ⟨?_, ?_, rfl⟩
  · intro pre c rest s' hlen hpre hc h1 h2
    rw [eui48TryFrom, if_neg (by rcases hlen with h | h <;> simp [h])]
    rw [string_to_eui, stringToEuiLoop_append]
    simp only [hpre]
    rw [stringToEuiLoop_cons_error _ _ _ _ _ (scanStep_invalid_char _ c s' hc h1 h2)]
    rfl
  · intro pre c rest s' hlen hpre hc h1 h2
    rw [eui64TryFrom, if_neg (by rcases hlen with h | h <;> simp [h])]
    rw [string_to_eui, stringToEuiLoop_append]
    simp only [hpre]
    rw [stringToEuiLoop_cons_error _ _ _ _ _ (scanStep_invalid_char _ c s' hc h1 h2)]
    rfl

theorem c5_witness :
    (utf8Len ("ad7e54972e".toList ++ 'j' :: ['a']) = 12 ∧
      stringToEuiLoop (utf8Len ("ad7e54972e".toList ++ 'j' :: ['a']))
        ("ad7e54972e".toList) ⟨List.replicate 6 0, 0, 0, none⟩ =
        .ok ⟨[173, 126, 84, 151, 46, 0], 10, 0, none⟩ ∧
      hexCharIndex 'j' = none) ∧
    eui48TryFrom ("ad7e54972e".toList ++ 'j' :: ['a']) = .error (.InvalidChar 'j') :=
  ⟨⟨rfl, rfl, rfl⟩,
   c5_invalid_char.1 ("ad7e54972e".toList) 'j' ['a'] ⟨[173, 126, 84, 151, 46, 0], 10, 0, none⟩
     (Or.inl rfl) rfl rfl (by decide) (by decide)⟩

end Eui

namespace Eui

lemma scanStep_sep_mismatch (L : Nat) (c : Char) (s : ScanState) (t : Char)
    (hc : hexCharIndex c = none) (hsep : c = ':' ∨ c = '-')
    (hplace : ¬(s.i = 0 ∨ s.i = L ∨ (s.i + 1) % 3 ≠ 0))
    (hst : s.separatorType = some t) (ht : t ≠ c) :
    scanStep L c s = .error .OnlyOneSeparatorTypeExpected := by
  simp only [scanStep, hc, if_pos hsep, if_neg hplace, hst, if_pos ht]

lemma hexCharIndex_none_of_sep (c : Char) (hsep : c = ':' ∨ c = '-') :
    hexCharIndex c = none := by
  rcases hsep with rfl | rfl
  · exact hexCharIndex_colon
  · exact hexCharIndex_hyphen

lemma scanStep_ok_sepType_some (L : Nat) (c : Char) (s s1 : ScanState) (t : Char)
    (hst : s.separatorType = some t) (h : scanStep L c s = .ok s1) :
    s1.separatorType = some t := by
  rcases hc : hexCharIndex c with _ | v <;> simp only [scanStep, hc] at h
  · split at h
    · split at h
      · exact absurd h (by simp)
      · simp only [hst] at h
        split at h
        · exact absurd h (by simp)
        · obtain rfl := Except.ok.inj h
          rfl
    · exact absurd h (by simp)
  · split at h
    · exact absurd h (by simp)
    · split at h <;> (obtain rfl := Except.ok.inj h; simpa using hst)

lemma stringToEuiLoop_sepType_some (L : Nat) (cs : List Char) :
    ∀ (s s' : ScanState) (t : Char), s.separatorType = some t →
    stringToEuiLoop L cs s = .ok s' → s'.separatorType = some t := by
  induction cs with
  | nil =>
    intro s s' t hst h
    obtain rfl := Except.ok.inj h
    exact hst
  | cons c rest ih =>
    intro s s' t hst h
    cases hstep : scanStep L c s with
    | error e =>
      rw [stringToEuiLoop_cons_error _ _ _ _ _ hstep] at h
      exact absurd h (by simp)
    | ok s1 =>
      rw [stringToEuiLoop_cons_ok _ _ _ _ _ hstep] at h
      exact ih s1 s' t (scanStep_ok_sepType_some L c s s1 t hst hstep) h

lemma scanStep_ok_none_cases (L : Nat) (c : Char) (s s1 : ScanState)
    (hst : s.separatorType = none) (h : scanStep L c s = .ok s1) :
    (∃ v, hexCharIndex c = some v ∧ s1.separatorType = none) ∨
    (hexCharIndex c = none ∧ (c = ':' ∨ c = '-') ∧ s1.separatorType = some c) := by
  rcases hc : hexCharIndex c with _ | v <;> simp only [scanStep, hc] at h
  · split at h
    · split at h
      · exact absurd h (by simp)
      · simp only [hst] at h
        obtain rfl := Except.ok.inj h
        next hsep _ => exact Or.inr ⟨rfl, hsep, rfl⟩
    · exact absurd h (by simp)
  · split at h
    · exact absurd h (by simp)
    · split at h <;> (obtain rfl := Except.ok.inj h; exact Or.inl ⟨v, rfl, by simpa using hst⟩)

lemma stringToEuiLoop_sepType_find (L : Nat) (cs : List Char) :
    ∀ (s s' : ScanState), s.separatorType = none →
    stringToEuiLoop L cs s = .ok s' →
    s'.separatorType = cs.find? (fun c => c == ':' || c == '-') := by
  induction cs with
  | nil =>
    intro s s' hst h
    obtain rfl := Except.ok.inj h
    simpa using hst
  | cons c rest ih =>
    intro s s' hst h
    cases hstep : scanStep L c s with
    | error e =>
      rw [stringToEuiLoop_cons_error _ _ _ _ _ hstep] at h
      exact absurd h (by simp)
    | ok s1 =>
      rw [stringToEuiLoop_cons_ok _ _ _ _ _ hstep] at h
      rcases scanStep_ok_none_cases L c s s1 hst hstep with ⟨v, hc, hst1⟩ | ⟨hc, hsep, hst1⟩
      · have h1 : c ≠ ':' := by
          intro hh
          rw [hh, hexCharIndex_colon] at hc
          exact Option.noConfusion hc
        have h2 : c ≠ '-' := by
          intro hh
          rw [hh, hexCharIndex_hyphen] at hc
          exact Option.noConfusion hc
        rw [List.find?_cons_of_neg _ (by simp [h1, h2])]
        exact ih s1 s' hst1 h
      · rw [List.find?_cons_of_pos _ (by rcases hsep with rfl | rfl <;> simp)]
        exact stringToEuiLoop_sepType_some L rest s1 s' c hst1 h

end Eui

namespace Eui

/-- C6: the separator kind is fixed by its first occurrence (on success
from a fresh state, `separator_type` is exactly the first `':'` or `'-'`
of the consumed prefix), and when the scan reaches a separator of the
other kind at an otherwise valid position, decoding fails with
OnlyOneSeparatorTypeExpected, at both widths; in particular the mixed
input `"4d:7e:54-97:2e:ef"` is rejected with this error as an `Eui48` and
`"4d:7e-54:00:00:97:2e-ef"` as an `Eui64`. -/
theorem c6_only_one_separator_type :
    (∀ L cs (s s' : ScanState), s.separatorType = none →
      stringToEuiLoop L cs s = .ok s' →
      s'.separatorType = cs.find? (fun c => c == ':' || c == '-')) ∧
    (∀ pre (c : Char) rest s' t,
      (utf8Len (pre ++ c :: rest) = 16 ∨ utf8Len (pre ++ c :: rest) = 23) →
      stringToEuiLoop (utf8Len (pre ++ c :: rest)) pre
        ⟨List.replicate 8 0, 0, 0, none⟩ = .ok s' →
      (c = ':' ∨ c = '-') →
      s'.separatorType = some t → t ≠ c →
      s'.i ≠ 0 → (s'.i + 1) % 3 = 0 →
      eui64TryFrom (pre ++ c :: rest) = .error .OnlyOneSeparatorTypeExpected) ∧
    (∀ pre (c : Char) rest s' t,
      (utf8Len (pre ++ c :: rest) = 12 ∨ utf8Len (pre ++ c :: rest) = 17) →
      stringToEuiLoop (utf8Len (pre ++ c :: rest)) pre
        ⟨List.replicate 6 0, 0, 0, none⟩ = .ok s' →
      (c = ':' ∨ c = '-') →
      s'.separatorType = some t → t ≠ c →
      s'.i ≠ 0 → (s'.i + 1) % 3 = 0 →
      eui48TryFrom (pre ++ c :: rest) = .error .OnlyOneSeparatorTypeExpected) ∧
    eui48TryFrom ("4d:7e:54-97:2e:ef".toList) =
      .error .OnlyOneSeparatorTypeExpected ∧
    eui64TryFrom ("4d:7e-54:00:00:97:2e-ef".toList) =
      .error .OnlyOneSeparatorTypeExpected := by
  refine ⟨fun L cs s s' => stringToEuiLoop_sepType_find L cs s s', ?_, ?_, rfl, rfl⟩
  · intro pre c rest s' t hlen hpre hsep hst ht hi0 hi3
    have hi' : s'.i = pre.length := by
      have h := stringToEuiLoop_ok_state _ _ _ _ hpre
      simpa using h.1
    have hiL : s'.i ≠ utf8Len (pre ++ c :: rest) := by
      have h1 := length_le_utf8Len (pre ++ c :: rest)
      have h2 : (pre ++ c :: rest).length = pre.length + (rest.length + 1) := by simp
      omega
    have hplace : ¬(s'.i = 0 ∨ s'.i = utf8Len (pre ++ c :: rest) ∨ (s'.i + 1) % 3 ≠ 0) := by
      push_neg
      exact ⟨hi0, hiL, by omega⟩
    rw [eui64TryFrom, if_neg (by rcases hlen with h | h <;> simp [h])]
    rw [string_to_eui, stringToEuiLoop_append]
    simp only [hpre]
    rw [stringToEuiLoop_cons_error _ _ _ _ _
        (scanStep_sep_mismatch _ c s' t (hexCharIndex_none_of_sep c hsep) hsep hplace hst ht)]
    rfl
  · intro pre c rest s' t hlen hpre hsep hst ht hi0 hi3
    have hi' : s'.i = pre.length := by
      have h := stringToEuiLoop_ok_state _ _ _ _ hpre
      simpa using h.1
    have hiL : s'.i ≠ utf8Len (pre ++ c :: rest) := by
      have h1 := length_le_utf8Len (pre ++ c :: rest)
      have h2 : (pre ++ c :: rest).length = pre.length + (rest.length + 1) := by simp
      omega
    have hplace : ¬(s'.i = 0 ∨ s'.i = utf8Len (pre ++ c :: rest) ∨ (s'.i + 1) % 3 ≠ 0) := by
      push_neg
      exact ⟨hi0, hiL, by omega⟩
    rw [eui48TryFrom, if_neg (by rcases hlen with h | h <;> simp [h])]
    rw [string_to_eui, stringToEuiLoop_append]
    simp only [hpre]
    rw [stringToEuiLoop_cons_error _ _ _ _ _
        (scanStep_sep_mismatch _ c s' t (hexCharIndex_none_of_sep c hsep) hsep hplace hst ht)]
    rfl

theorem c6_witness :
    (utf8Len ("4d:7e".toList ++ '-' :: "54:00:00:97:2e-ef".toList) = 23 ∧
      stringToEuiLoop (utf8Len ("4d:7e".toList ++ '-' :: "54:00:00:97:2e-ef".toList))
        ("4d:7e".toList) ⟨List.replicate 8 0, 0, 0, none⟩ =
        .ok ⟨[77, 126, 0, 0, 0, 0, 0, 0], 5, 1, some ':'⟩) ∧
    eui64TryFrom ("4d:7e".toList ++ '-' :: "54:00:00:97:2e-ef".toList) =
      .error .OnlyOneSeparatorTypeExpected :=
  ⟨⟨rfl, rfl⟩,
   c6_only_one_separator_type.2.1 ("4d:7e".toList) '-' ("54:00:00:97:2e-ef".toList)
     ⟨[77, 126, 0, 0, 0, 0, 0, 0], 5, 1, some ':'⟩ ':'
     (Or.inr rfl) rfl (Or.inr rfl) rfl (by decide) (by decide) rfl⟩

end Eui

namespace Eui

/-- Two characters differ only by hex-digit letter case: they are equal, or
one is a letter `a`-`f` and the other the same letter in the other case. -/
def caseEquiv (c d : Char) : Prop :=
  c = d ∨ (c, d) ∈ ([('A', 'a'), ('a', 'A'), ('B', 'b'), ('b', 'B'),
    ('C', 'c'), ('c', 'C'), ('D', 'd'), ('d', 'D'),
    ('E', 'e'), ('e', 'E'), ('F', 'f'), ('f', 'F')] : List (Char × Char))

instance (c d : Char) : Decidable (caseEquiv c d) := by
  unfold caseEquiv
  infer_instance

lemma caseEquiv_facts (c d : Char) (h : caseEquiv c d) :
    hexCharIndex c = hexCharIndex d ∧ c.utf8Size = d.utf8Size ∧
    (hexCharIndex c = none → c = d) := by
  have key : ∀ p ∈ ([('A', 'a'), ('a', 'A'), ('B', 'b'), ('b', 'B'),
      ('C', 'c'), ('c', 'C'), ('D', 'd'), ('d', 'D'),
      ('E', 'e'), ('e', 'E'), ('F', 'f'), ('f', 'F')] : List (Char × Char)),
      hexCharIndex p.1 = hexCharIndex p.2 ∧ p.1.utf8Size = p.2.utf8Size ∧
      (hexCharIndex p.1 = none → p.1 = p.2) := by decide
  rcases h with rfl | h
  · exact ⟨rfl, rfl, fun _ => rfl⟩
  · exact key (c, d) h

lemma scanStep_congr_digit (L : Nat) (a b : Char) (s : ScanState) (v : Nat)
    (ha : hexCharIndex a = some v) (hb : hexCharIndex b = some v) :
    scanStep L a s = scanStep L b s := by
  simp only [scanStep, ha, hb]

lemma stringToEuiLoop_caseEquiv (L : Nat) (xs ys : List Char)
    (hxy : List.Forall₂ caseEquiv xs ys) :
    ∀ s, stringToEuiLoop L xs s = stringToEuiLoop L ys s := by
  induction hxy with
  | nil => intro s; rfl
  | @cons a b xs' ys' hcd htail ih =>
    intro s
    obtain ⟨hhex, hsz, hnone⟩ := caseEquiv_facts _ _ hcd
    rcases hc : hexCharIndex a with _ | v
    · obtain rfl := hnone hc
      cases hstep : scanStep L a s with
      | error e =>
        rw [stringToEuiLoop_cons_error _ _ _ _ _ hstep,
            stringToEuiLoop_cons_error _ _ _ _ _ hstep]
      | ok s1 =>
        rw [stringToEuiLoop_cons_ok _ _ _ _ _ hstep,
            stringToEuiLoop_cons_ok _ _ _ _ _ hstep]
        exact ih s1
    · have hb : hexCharIndex b = some v := by rw [← hhex]; exact hc
      have hstep_eq := scanStep_congr_digit L a b s v hc hb
      cases hstep : scanStep L a s with
      | error e =>
        rw [stringToEuiLoop_cons_error _ _ _ _ _ hstep,
            stringToEuiLoop_cons_error _ _ _ _ _ (hstep_eq.symm.trans hstep)]
      | ok s1 =>
        rw [stringToEuiLoop_cons_ok _ _ _ _ _ hstep,
            stringToEuiLoop_cons_ok _ _ _ _ _ (hstep_eq.symm.trans hstep)]
        exact ih s1

lemma utf8Len_caseEquiv (xs ys : List Char) (h : List.Forall₂ caseEquiv xs ys) :
    utf8Len xs = utf8Len ys := by
  induction h with
  | nil => rfl
  | cons hcd htail ih =>
    rw [utf8Len_cons, utf8Len_cons, (caseEquiv_facts _ _ hcd).2.1, ih]

/-- C9: decoding is case-insensitive: two inputs that differ only in the
letter case of hex digits decode identically at both widths — the same
success value or the same error. -/
theorem c9_case_insensitive (xs ys : List Char)
    (h : List.Forall₂ caseEquiv xs ys) :
    eui48TryFrom xs = eui48TryFrom ys ∧ eui64TryFrom xs = eui64TryFrom ys := by
  have hlen := utf8Len_caseEquiv xs ys h
  constructor
  · simp only [eui48TryFrom, string_to_eui, hlen]
    split
    · rfl
    · rw [stringToEuiLoop_caseEquiv (utf8Len ys) xs ys h]
  · simp only [eui64TryFrom, string_to_eui, hlen]
    split
    · rfl
    · rw [stringToEuiLoop_caseEquiv (utf8Len ys) xs ys h]

theorem c9_witness :
    List.Forall₂ caseEquiv ("4d7e54972Eef".toList) ("4D7E54972eEF".toList) ∧
    eui48TryFrom ("4d7e54972Eef".toList) = eui48TryFrom ("4D7E54972eEF".toList) := by
  have h : List.Forall₂ caseEquiv ("4d7e54972Eef".toList) ("4D7E54972eEF".toList) := by
    repeat first
      | exact List.Forall₂.nil
      | refine List.Forall₂.cons (by decide) ?_
  exact ⟨h, (c9_case_insensitive _ _ h).1⟩

end Eui
